import Mathlib

/-!
# Verification of the furry-guacamole reconciliation engine

Shallow embedding of `src/index.ts`: the time parser (`parseTime`), the feed
normalizer, the local-cache / remote-directory reconciler inside
`fetchFromGoogleSheets`, and the absence sweeper.  Remote I/O is modelled by
an explicit call log; the JS mutable state (`data.buses`, `dataUpdated`,
`busCache`) is threaded through a `PassState` record.
-/

set_option autoImplicit false

namespace FurryGuacamole

/-! ## String helpers modelling the JS primitives used by the source -/

/-- ASCII whitespace, modelling the characters `String.prototype.trim`
removes on the feed's ASCII payloads. -/
def isJsSpace (c : Char) : Bool :=
  c = ' ' || c = '\t' || c = '\n' || c = '\r'

/-- Model of `String.prototype.trim` (ASCII fragment). -/
def jsTrim (s : String) : String :=
  String.mk (((s.data.dropWhile isJsSpace).reverse.dropWhile isJsSpace).reverse)

/-- Model of `String.prototype.toUpperCase` (ASCII fragment). -/
def jsToUpper (s : String) : String :=
  String.mk (s.data.map Char.toUpper)

/-- Model of `parseInt` on the digit-only strings captured by the time regex. -/
def digitsToNat (s : String) : Nat :=
  s.data.foldl (fun n c => n * 10 + (c.toNat - '0'.toNat)) 0

/-- JS truthiness of an optional string: `undefined` and `""` are falsy. -/
def jsTruthy : Option String → Bool
  | none => false
  | some s => !(s == "")

/-! ## The time regex

`const timeRegex = /(0?[0-9]|1[0-2]):([0-5][0-9]) *(AM|PM)?/;`

`timeRegex.exec` finds the leftmost match anywhere in the string.  The
functions below mirror the backtracking order of the JS engine: at each start
position, group 1 first tries `0?[0-9]` with a greedy `0?` (two characters,
then one), then the alternative `1[0-2]`. -/

def isAsciiDigit (c : Char) : Bool := '0' ≤ c && c ≤ '9'

def isMinuteTens (c : Char) : Bool := '0' ≤ c && c ≤ '5'

/-- The groups of a successful `timeRegex.exec`: `match[1]`, `match[2]` and
the optional `match[3]` (`AM`/`PM`). -/
structure RegexGroups where
  hourStr : String
  minuteStr : String
  marker : Option String
deriving DecidableEq

/-- Greedy ` *` after the minutes. -/
def dropSpaces : List Char → List Char
  | [] => []
  | c :: rest => if c = ' ' then dropSpaces rest else c :: rest

/-- The optional `(AM|PM)?` group; `none` = group did not participate. -/
def matchMarker : List Char → Option String
  | 'A' :: 'M' :: _ => some "AM"
  | 'P' :: 'M' :: _ => some "PM"
  | _ => none

/-- `:([0-5][0-9]) *(AM|PM)?` after the hour group. -/
def matchRest (l : List Char) : Option (String × Option String) :=
  match l with
  | ':' :: m1 :: m2 :: rest =>
    if isMinuteTens m1 && isAsciiDigit m2 then
      some (String.mk [m1, m2], matchMarker (dropSpaces rest))
    else none
  | _ => none

/-- Hour alternative `0?[0-9]` with `0?` matching `0` (two characters). -/
def matchHourA (l : List Char) : Option RegexGroups :=
  match l with
  | c1 :: c2 :: rest =>
    if c1 = '0' && isAsciiDigit c2 then
      (matchRest rest).map (fun p => ⟨String.mk [c1, c2], p.1, p.2⟩)
    else none
  | _ => none

/-- Hour alternative `0?[0-9]` with `0?` matching empty (one digit). -/
def matchHourB (l : List Char) : Option RegexGroups :=
  match l with
  | c :: rest =>
    if isAsciiDigit c then
      (matchRest rest).map (fun p => ⟨String.mk [c], p.1, p.2⟩)
    else none
  | _ => none

/-- Hour alternative `1[0-2]`. -/
def matchHourC (l : List Char) : Option RegexGroups :=
  match l with
  | c1 :: c2 :: rest =>
    if c1 = '1' && ('0' ≤ c2 && c2 ≤ '2') then
      (matchRest rest).map (fun p => ⟨String.mk [c1, c2], p.1, p.2⟩)
    else none
  | _ => none

/-- Match of the whole regex starting exactly at this position, in JS
backtracking order. -/
def matchAt (l : List Char) : Option RegexGroups :=
  match matchHourA l with
  | some m => some m
  | none =>
    match matchHourB l with
    | some m => some m
    | none => matchHourC l

/-- `timeRegex.exec`: leftmost match over all start positions. -/
def execTimeRegex : List Char → Option RegexGroups
  | [] => none
  | c :: rest =>
    match matchAt (c :: rest) with
    | some m => some m
    | none => execTimeRegex rest

/-- Whether any start position matches (used to characterise `exec = null`). -/
def hasTimeMatch : List Char → Bool
  | [] => false
  | c :: rest => (matchAt (c :: rest)).isSome || hasTimeMatch rest

/-- `parseTime` from `src/index.ts`.

```js
function parseTime(str) {
  const match = timeRegex.exec(str);
  if (match) {
    let hour = parseInt(match[1]);
    const minute = parseInt(match[2]);
    if (match.length < 4) {
      if (hour > 0 && hour < 11) { hour += 12; } // PM hardcode but it works for now
    } else if (match[3] == "AM") {
      if (hour === 12) { hour = 0; }
    } else {
      if (hour !== 12) { hour += 12; }
    }
    return hour * 60 + minute;
  }
}
```

In JS the array returned by `exec` always has `length` 1 + number of capture
groups = 4 (a non-participating optional group is `undefined` but still
counted), so `match.length < 4` is modelled by `4 < 4`; `match[3] == "AM"`
is false when `match[3]` is `undefined`. -/
def parseTime (str : String) : Option Nat :=
  match execTimeRegex str.data with
  | none => none
  | some m =>
    let hour := digitsToNat m.hourStr
    let minute := digitsToNat m.minuteStr
    let matchLength : Nat := 4
    let hour :=
      if matchLength < 4 then
        if hour > 0 && hour < 11 then hour + 12 else hour
      else if m.marker = some "AM" then
        if hour = 12 then 0 else hour
      else
        if hour ≠ 12 then hour + 12 else hour
    some (hour * 60 + minute)

example : parseTime "1:30 PM" = some 810 := by decide
example : parseTime "12:00 AM" = some 0 := by decide
example : parseTime "9:00" = some 1260 := by decide
example : parseTime "11:30" = some 1410 := by decide
example : parseTime "0:45" = some 765 := by decide
example : parseTime "13:00" = some 900 := by decide
example : parseTime "hello" = none := by decide
example : parseTime "leaves at 10:05am sharp" = some 1325 := by decide
example : parseTime "bus 12:59 PM!" = some 779 := by decide

/-! ## Feed normalizer

An update candidate `{name, location, departure}` as pushed onto `buses`. -/

structure Candidate where
  name : String
  location : Option String
  departure : Option Nat
deriving DecidableEq

/-- A structured feed entry `Record<string, {$t: string}>`, modelled as a map
from field key to the `$t` text (`none` = key absent). -/
def Entry : Type := String → Option String

/-- The two `(name-key, location-key, departure-key)` triples the source maps
over for each structured entry. -/
def keyTriples : List (String × String × String) :=
  [("gsx$towns", "gsx$loc", "gsx$time"),
   ("gsx$townsbuslocation", "gsx$loc_2", "gsx$time_2")]

/-- `entry[k] && entry[k].$t && entry[k].$t.trim()` followed by the guard
`name && name.length > 0`: the name is produced only when the key is present
with a nonempty trimmed text (`undefined` and `""` both fail the guard). -/
def entryName (e : Entry) (k : String) : Option String :=
  match e k with
  | none => none
  | some t =>
    let n := jsTrim t
    if n.length > 0 then some n else none

/-- `entry[k] && entry[k].$t && entry[k].$t.trim().toUpperCase()` followed by
`location && location.length > 0 ? location : undefined`. -/
def entryLocation (e : Entry) (k : String) : Option String :=
  match e k with
  | none => none
  | some t =>
    let l := jsToUpper (jsTrim t)
    if l.length > 0 then some l else none

/-- `if (entry[k] && entry[k].$t) departure = parseTime(entry[k].$t)`. -/
def entryDeparture (e : Entry) (k : String) : Option Nat :=
  match e k with
  | none => none
  | some t => if t = "" then none else parseTime t

/-- The normalizer's accumulated state: the `buses` candidate list and the
`seenBuses` name set (a JS object used as a set, modelled as a list without
duplicates in insertion order). -/
def NormAcc : Type := List Candidate × List String

/-- `seenBuses[name] = true`. -/
def insertSeen (seen : List String) (n : String) : List String :=
  if n ∈ seen then seen else seen ++ [n]

/-- One key triple applied to one structured entry: push the candidate and
record the name when the name is nonempty. -/
def structuredTriple (e : Entry) (acc : NormAcc) (ks : String × String × String) : NormAcc :=
  match entryName e ks.1 with
  | none => acc
  | some name =>
    (acc.1 ++ [⟨name, entryLocation e ks.2.1, entryDeparture e ks.2.2⟩],
     insertSeen acc.2 name)

/-- `feed.feed.entry.forEach(entry => ... forEach(keys => ...))` body. -/
def structuredStep (acc : NormAcc) (e : Entry) : NormAcc :=
  keyTriples.foldl (structuredTriple e) acc

/-- The structured-feed phase over all entries, from an empty accumulator. -/
def structuredPhase (entries : List Entry) : NormAcc :=
  entries.foldl structuredStep ([], [])

/-- `row[i].textContent`: reading cell `i` of a row; `row[i]` is `undefined`
when the row is too short and accessing `.textContent` throws, modelled by
`Except.error i`. -/
def readCell (row : List String) (i : Nat) : Except Nat String :=
  match row.get? i with
  | some s => Except.ok s
  | none => Except.error i

/-- The tabular-fallback body for one column group starting at `index`
(`[0, 3].map(index => ...)`):

```js
const name = row[index].textContent.trim();
if (name.length < 1) { return; }
const locationStr = row[index + 1].textContent.trim().toUpperCase();
let location; if (locationStr.length > 0) { location = locationStr; }
if (!seenBuses[name]) {
  buses.push({name, location,
    departure: row[index + 2].textContent ? parseTime(row[index + 2].textContent) : undefined});
  seenBuses[name] = true;
}
```
-/
def tabularIndex (acc : NormAcc) (row : List String) (index : Nat) : Except Nat NormAcc :=
  match readCell row index with
  | Except.error i => Except.error i
  | Except.ok nameCell =>
    let name := jsTrim nameCell
    if name.length < 1 then Except.ok acc
    else
      match readCell row (index + 1) with
      | Except.error i => Except.error i
      | Except.ok locCell =>
        let locationStr := jsToUpper (jsTrim locCell)
        let location := if locationStr.length > 0 then some locationStr else none
        if name ∈ acc.2 then Except.ok acc
        else
          match readCell row (index + 2) with
          | Except.error i => Except.error i
          | Except.ok depCell =>
            Except.ok
              (acc.1 ++ [⟨name, location, if depCell = "" then none else parseTime depCell⟩],
               insertSeen acc.2 name)

/-- One table row: the column groups at indices 0 and 3, in order. -/
def tabularRow (acc : NormAcc) (row : List String) : Except Nat NormAcc :=
  match tabularIndex acc row 0 with
  | Except.error i => Except.error i
  | Except.ok acc1 => tabularIndex acc1 row 3

/-- Sequential processing of a list of rows. -/
def tabularRows (acc : NormAcc) : List (List String) → Except Nat NormAcc
  | [] => Except.ok acc
  | row :: rest =>
    match tabularRow acc row with
    | Except.error i => Except.error i
    | Except.ok acc1 => tabularRows acc1 rest

/-- The tabular fallback: `[...tr].slice(3)` skips three header rows, then
each remaining row's `td` cells are processed. -/
def tabularPhase (acc : NormAcc) (rows : List (List String)) : Except Nat NormAcc :=
  tabularRows acc (rows.drop 3)

/-- The whole feed normalizer: structured entries first, then the tabular
fallback over the shared `seenBuses` set. -/
def normalizeFeed (entries : List Entry) (rows : List (List String)) : Except Nat NormAcc :=
  tabularPhase (structuredPhase entries) rows

/-! ## Reconciler data model -/

/-- An `invalidateTime` value: either rehydrated from a remote ISO string or
constructed as `new Date(year, month, date + 1, 0, 0, 0, 0)` (the arguments
of the JS constructor; JS normalises an out-of-range day to the next month,
so the argument triple denotes next-day midnight). -/
inductive InvalTime where
  | fromString (s : String)
  | midnight (year month day : Int)
deriving DecidableEq

/-- Wall clock reading (`new Date()` projected on the fields the source
reads: `getFullYear`, `getMonth`, `getDate`).  The clock is modelled as
constant during a pass. -/
structure Now where
  year : Int
  month : Int
  day : Int

/-- `new Date(now.getFullYear(), now.getMonth(), now.getDate() + 1, 0, 0, 0, 0)`. -/
def nextDayMidnight (now : Now) : InvalTime :=
  InvalTime.midnight now.year now.month (now.day + 1)

/-- The cached `Bus` record (interface `Bus`). -/
structure Bus where
  id : String
  invalidateTime : Option InvalTime
  departure : Option Nat
  locations : List String
  available : Bool
deriving DecidableEq

/-- A remote directory entry (interface `ExternalBus`). -/
structure ExternalBus where
  _id : String
  name : Option String
  locations : List String
  departure : Option Nat
  invalidate_time : Option String
  other_names : Option (List String)
  available : Bool
deriving DecidableEq

/-- `bus.name === name || (bus.other_names && bus.other_names.includes(name))`. -/
def busMatches (bus : ExternalBus) (name : String) : Bool :=
  bus.name == some name ||
    (match bus.other_names with
     | some others => others.contains name
     | none => false)

/-- `busCache.find(bus => bus.name === name || (bus.other_names && bus.other_names.includes(name)))`. -/
def findBus (busCache : List ExternalBus) (name : String) : Option ExternalBus :=
  busCache.find? (fun bus => busMatches bus name)

/-- A remote HTTP call issued during a pass.  `getBuses` is the directory
fetch; the others are mutations. -/
inductive RemoteCall where
  | getBuses
  | postBus (name : String)
  | patchAvailable (id : String) (available : Bool)
  | putDeparture (id : String) (departure : Nat)
  | putLocation (id : String) (locations : List String) (associateTime : Bool)
deriving DecidableEq

def RemoteCall.isGet : RemoteCall → Bool
  | RemoteCall.getBuses => true
  | _ => false

def RemoteCall.isPost : RemoteCall → Bool
  | RemoteCall.postBus _ => true
  | _ => false

/-- Number of directory fetches in a call log. -/
def countGets (calls : List RemoteCall) : Nat :=
  (calls.filter RemoteCall.isGet).length

/-- Number of create calls in a call log. -/
def countPosts (calls : List RemoteCall) : Nat :=
  (calls.filter RemoteCall.isPost).length

/-- The configuration fields the reconciler core reads. -/
structure Config where
  dryRun : Bool

/-- The remote collaborators: what `GET /buses` returns, the id assigned by
`POST /buses` for a given name, and the wall clock. -/
structure Env where
  remoteBuses : List ExternalBus
  createId : String → String
  now : Now

/-- The mutable state of one reconciliation pass: `data.buses` (a JS object,
modelled as an insertion-ordered association list with unique keys),
the `dataUpdated` dirty flag, the memoized `busCache` closure variable, and
the log of remote calls issued so far. -/
structure PassState where
  buses : List (String × Bus)
  dataUpdated : Bool
  busCache : Option (List ExternalBus)
  calls : List RemoteCall
deriving DecidableEq

/-- `data.buses[name]` (lookup). -/
def recGet (m : List (String × Bus)) (k : String) : Option Bus :=
  (m.find? (fun p => p.1 == k)).map (fun p => p.2)

/-- `data.buses[name] = bus` (update in place or append). -/
def recSet : List (String × Bus) → String → Bus → List (String × Bus)
  | [], k, v => [(k, v)]
  | (k1, v1) :: rest, k, v =>
    if k1 == k then (k, v) :: rest else (k1, v1) :: recSet rest k v

/-! ## Reconciler steps (the body of `buses.reduce`) -/

/-- Step 2 — availability:

```js
if (!bus.available) {
  bus.available = true;
  if (!config.dryRun) { await rp.patch(... {available: true} ...); }
  dataUpdated = true;
}
```
-/
def stepAvailability (cfg : Config) (st : PassState) (name : String) (bus : Bus) :
    PassState × Bus :=
  if bus.available then (st, bus)
  else
    let bus2 := { bus with available := true }
    ({ st with
        buses := recSet st.buses name bus2,
        calls := st.calls ++
          (if cfg.dryRun then [] else [RemoteCall.patchAvailable bus.id true]),
        dataUpdated := true },
     bus2)

/-- Step 3 — departure:

```js
if (typeof departure !== "undefined") {
  if (bus.departure !== departure) {
    bus.departure = departure;
    if (config.dryRun) { log(...); } else { await rp.put(...departure...); }
  }
}
```

Note: this branch of the source never sets `dataUpdated`. -/
def stepDeparture (cfg : Config) (st : PassState) (name : String) (dep : Option Nat)
    (bus : Bus) : PassState × Bus :=
  match dep with
  | none => (st, bus)
  | some departure =>
    if bus.departure = some departure then (st, bus)
    else
      let bus2 := { bus with departure := some departure }
      ({ st with
          buses := recSet st.buses name bus2,
          calls := st.calls ++
            (if cfg.dryRun then [] else [RemoteCall.putDeparture bus.id departure]) },
       bus2)

/-- Step 4 — location: set to the new singleton (with `associate_time: true`)
when a truthy candidate location differs from `bus.locations[0]`; reset to
`[]` when the candidate location is falsy and `bus.locations` is nonempty;
either way `invalidateTime` becomes next-day midnight and `dataUpdated` is
set. -/
def stepLocation (cfg : Config) (env : Env) (st : PassState) (name : String)
    (loc : Option String) (bus : Bus) : PassState :=
  if jsTruthy loc then
    let location := loc.getD ""
    if bus.locations.get? 0 = some location then st
    else
      let bus2 := { bus with
        locations := [location], invalidateTime := some (nextDayMidnight env.now) }
      { st with
          buses := recSet st.buses name bus2,
          calls := st.calls ++
            (if cfg.dryRun then [] else [RemoteCall.putLocation bus.id [location] true]),
          dataUpdated := true }
  else
    if bus.locations.length = 0 then st
    else
      let bus2 := { bus with
        locations := [], invalidateTime := some (nextDayMidnight env.now) }
      { st with
          buses := recSet st.buses name bus2,
          calls := st.calls ++
            (if cfg.dryRun then [] else [RemoteCall.putLocation bus.id [] false]),
          dataUpdated := true }

/-- Steps 2–4 applied to a resolved record. -/
def applySteps (cfg : Config) (env : Env) (st : PassState) (c : Candidate) (bus : Bus) :
    PassState :=
  let p1 := stepAvailability cfg st c.name bus
  let p2 := stepDeparture cfg p1.1 c.name c.departure p1.2
  stepLocation cfg env p2.1 c.name c.location p2.2

/-- Seeding a cache record from a remote directory match:
`{id: foundBus._id, locations, departure, invalidateTime: invalidate_time && new Date(...), available}`. -/
def seedFromRemote (found : ExternalBus) : Bus :=
  { id := found._id,
    locations := found.locations,
    departure := found.departure,
    invalidateTime := found.invalidate_time.map InvalTime.fromString,
    available := found.available }

/-- Resolution of a cache miss against the directory snapshot `snap`, from
the state `st2` reached after the (possible) lazy fetch: a directory match
seeds the record; otherwise the candidate is skipped in dry-run mode or when
its location is falsy (`else if (!location) return`), and otherwise a
`POST /buses` create is issued; steps 2–4 then run on the record. -/
def resolveMiss (cfg : Config) (env : Env) (snap : List ExternalBus) (st2 : PassState)
    (c : Candidate) : PassState :=
  match findBus snap c.name with
  | some foundBus =>
    let bus := seedFromRemote foundBus
    let st3 := { st2 with buses := recSet st2.buses c.name bus, dataUpdated := true }
    applySteps cfg env st3 c bus
  | none =>
    if cfg.dryRun then st2
    else if jsTruthy c.location then
      let bus : Bus :=
        { id := env.createId c.name, invalidateTime := none, departure := none,
          locations := [], available := true }
      let st3 := { st2 with
        buses := recSet st2.buses c.name bus,
        calls := st2.calls ++ [RemoteCall.postBus c.name],
        dataUpdated := true }
      applySteps cfg env st3 c bus
    else st2

/-- The body of `buses.reduce` for one candidate: resolve or create the
record (step 1), then apply steps 2–4.  A cache miss first consults the
memoized `busCache`, fetching `GET /buses` only when it is not yet set. -/
def processCandidate (cfg : Config) (env : Env) (st : PassState) (c : Candidate) :
    PassState :=
  match recGet st.buses c.name with
  | some bus => applySteps cfg env st c bus
  | none =>
    match st.busCache with
    | some l => resolveMiss cfg env l st c
    | none =>
      resolveMiss cfg env env.remoteBuses
        { st with
            busCache := some env.remoteBuses,
            calls := st.calls ++ [RemoteCall.getBuses] } c

/-! ## Absence sweeper -/

/-- The sweeper's action for one cached key
(`Object.keys(data.buses).filter(key => !seenBuses[key]).map(...)` body):
an available record not seen this pass is marked unavailable and PATCHed
(unless dry-run).  The per-key actions are independent; they are modelled in
key order. -/
def sweepKey (cfg : Config) (seen : List String) (st : PassState) (key : String) :
    PassState :=
  if key ∈ seen then st
  else
    match recGet st.buses key with
    | none => st
    | some b =>
      if b.available then
        { st with
            buses := recSet st.buses key { b with available := false },
            calls := st.calls ++
              (if cfg.dryRun then [] else [RemoteCall.patchAvailable b.id false]),
            dataUpdated := true }
      else st

/-- The absence sweeper over all cached keys. -/
def sweep (cfg : Config) (seen : List String) (st : PassState) : PassState :=
  (st.buses.map Prod.fst).foldl (sweepKey cfg seen) st

/-- One reconciliation pass over an already-normalized candidate list: the
sequential `buses.reduce`, then the absence sweeper.  The pass starts with a
clean dirty flag, no memoized directory snapshot and an empty call log. -/
def runPass (cfg : Config) (env : Env) (buses0 : List (String × Bus))
    (cands : List Candidate) (seen : List String) : PassState :=
  sweep cfg seen (cands.foldl (processCandidate cfg env) ⟨buses0, false, none, []⟩)

/-- `fetchFromGoogleSheets`: normalize the two feed representations, then run
the pass; a normalizer exception fails the whole pass. -/
def fetchFromGoogleSheets (cfg : Config) (env : Env) (buses0 : List (String × Bus))
    (entries : List Entry) (rows : List (List String)) : Except Nat PassState :=
  match normalizeFeed entries rows with
  | Except.error i => Except.error i
  | Except.ok (cands, seen) => Except.ok (runPass cfg env buses0 cands seen)

/-! ## Helper lemmas -/

theorem foldl_id {α β : Type} (f : α → β → α) (a : α) (l : List β)
    (h : ∀ b ∈ l, f a b = a) : l.foldl f a = a := by
  induction l with
  | nil => rfl
  | cons x xs ih =>
    have hx : f a x = a := h x (List.mem_cons_self x xs)
    simp only [List.foldl_cons, hx]
    exact ih (fun b hb => h b (List.mem_cons_of_mem x hb))

theorem recGet_recSet_self (m : List (String × Bus)) (k : String) (v : Bus) :
    recGet (recSet m k v) k = some v := by
  induction m with
  | nil => simp [recGet, recSet, List.find?]
  | cons p rest ih =>
    by_cases h : p.1 = k
    · simp [recGet, recSet, List.find?, h]
    · have hb : (p.1 == k) = false := by simp [h]
      cases p with
      | mk k1 v1 =>
        simp only at h hb
        simp only [recSet, hb, if_false]
        simpa [recGet, List.find?, hb] using ih

theorem recGet_recSet_ne (m : List (String × Bus)) (k n : String) (v : Bus)
    (h : n ≠ k) : recGet (recSet m k v) n = recGet m n := by
  have hkn : (k == n) = false := by
    rw [beq_eq_false_iff_ne]
    exact Ne.symm h
  induction m with
  | nil => simp [recGet, recSet, List.find?, hkn]
  | cons p rest ih =>
    cases p with
    | mk k1 v1 =>
      by_cases h1 : k1 = k
      · subst h1
        simp [recGet, recSet, List.find?, hkn]
      · have hb : (k1 == k) = false := by simp [h1]
        simp only [recSet, hb, if_false]
        cases hb2 : (k1 == n) with
        | true => simp [recGet, List.find?, hb2]
        | false => simpa [recGet, List.find?, hb2] using ih

theorem recGet_recSet_isSome (m : List (String × Bus)) (k n : String) (v : Bus)
    (h : (recGet m n).isSome = true) : (recGet (recSet m k v) n).isSome = true := by
  by_cases hk : n = k
  · subst hk; simp [recGet_recSet_self]
  · rw [recGet_recSet_ne m k n v hk]; exact h

theorem countGets_append (l1 l2 : List RemoteCall) :
    countGets (l1 ++ l2) = countGets l1 + countGets l2 := by
  simp [countGets, List.filter_append]

theorem countPosts_append (l1 l2 : List RemoteCall) :
    countPosts (l1 ++ l2) = countPosts l1 + countPosts l2 := by
  simp [countPosts, List.filter_append]

theorem jsTruthy_some_getD {loc : Option String} (h : jsTruthy loc = true) :
    some (loc.getD "") = loc := by
  cases loc with
  | none => simp [jsTruthy] at h
  | some s => rfl

/-! ## C1 — no-marker heuristic of the time parser -/

/-- C1: evaluation of `parseTime` at no-marker inputs with hour 11 and hour
0.  The claim says hours 0 and 11 are left unshifted (`660` and `45`); the
code returns `1410` and `765` because `match.length < 4` is always false in
JS, so the `(0, 11)` fallback branch is dead and the PM branch shifts every
no-marker hour other than 12. -/
theorem C1_no_marker_eval :
    parseTime "11:30" = some 1410 ∧ parseTime "0:45" = some 765 := by
  constructor <;> decide

/-! ## C2 — malformed input handling of the time parser -/

/-- C2 counterexample: the claim says the string `"13:00"` (invalid hour)
yields absent; the unanchored regex finds the valid sub-pattern `"3:00"`
inside it, so `parseTime` returns `some 900` (3:00 heuristically shifted to
15:00), not `none`. -/
theorem C2_counterexample :
    parseTime "13:00" = some 900 ∧ parseTime "13:00" ≠ none := by
  constructor <;> decide

theorem execTimeRegex_eq_none_of_no_match (l : List Char)
    (h : hasTimeMatch l = false) : execTimeRegex l = none := by
  induction l with
  | nil => rfl
  | cons c rest ih =>
    simp only [hasTimeMatch, Bool.or_eq_false_iff] at h
    obtain ⟨h1, h2⟩ := h
    simp only [execTimeRegex]
    cases hm : matchAt (c :: rest) with
    | some m => rw [hm] at h1; simp at h1
    | none => exact ih h2

/-- C2 amended: `parseTime` is a total function into `Option Nat` (it never
raises), and it returns `none` exactly when no position of the input matches
the `H:MM`/`H:MM AM-PM` pattern; the string `"13:00"` does contain a match
(the substring `"3:00"`) and therefore yields `some 900` rather than absent. -/
theorem C2_amended_no_match_absent :
    (∀ s : String, hasTimeMatch s.data = false → parseTime s = none) ∧
      parseTime "13:00" = some 900 := by
  constructor
  · intro s h
    unfold parseTime
    rw [execTimeRegex_eq_none_of_no_match s.data h]
  · decide

/-- Witness for C2: a concrete string with no time pattern is parsed to
absent. -/
theorem C2_amended_witness : parseTime "no departure listed" = none :=
  C2_amended_no_match_absent.1 "no departure listed" (by decide)

/-! ## C4 — departure reconciliation never sets the dirty flag -/

def c4Bus : Bus :=
  { id := "busA", invalidateTime := none, departure := some 540,
    locations := ["X"], available := true }

def c4State : PassState :=
  { buses := [("A", c4Bus)], dataUpdated := false, busCache := none, calls := [] }

def c4Cand : Candidate := { name := "A", location := some "X", departure := some 600 }

def c4Env : Env := { remoteBuses := [], createId := fun _ => "unused", now := ⟨2026, 9, 11⟩ }

/-- C4: evaluation at the failing input — a cached, available bus whose
departure changes (540 → 600) and whose location is unchanged.  The code
updates the record locally and issues the remote PUT, but `dataUpdated`
remains `false`: the departure branch of the source never marks the cache
dirty, contradicting the claim (and §4.5 step 3 of the spec). -/
theorem C4_departure_not_marked_dirty :
    (processCandidate ⟨false⟩ c4Env c4State c4Cand).calls =
        [RemoteCall.putDeparture "busA" 600] ∧
      recGet (processCandidate ⟨false⟩ c4Env c4State c4Cand).buses "A" =
        some { c4Bus with departure := some 600 } ∧
      (processCandidate ⟨false⟩ c4Env c4State c4Cand).dataUpdated = false := by
  refine ⟨?_, ?_, ?_⟩ <;> decide

/-! ## C3 — remote directory matching -/

/-- A remote bus that carries the name `"X"` only as an alias and comes
first in the directory snapshot. -/
def c3BusAlias : ExternalBus :=
  { _id := "idA", name := some "Alpha", locations := [], departure := none,
    invalidate_time := none, other_names := some ["X"], available := true }

/-- A remote bus that carries `"X"` as its exact name and comes second. -/
def c3BusExact : ExternalBus :=
  { _id := "idB", name := some "X", locations := [], departure := none,
    invalidate_time := none, other_names := none, available := true }

/-- C3 counterexample: the claim says the exact-name bus wins even when a
different bus carries the name as an alias earlier in the snapshot.  The
code is a single `Array.find` over the snapshot with an OR predicate, so the
earlier alias-only bus `idA` is resolved, not the exact-name bus `idB`. -/
theorem C3_counterexample :
    findBus [c3BusAlias, c3BusExact] "X" = some c3BusAlias ∧
      c3BusAlias ≠ c3BusExact := by
  constructor <;> decide

/-- C3 amended: the lookup scans the snapshot in order and returns the first
bus whose exact name or alias list carries the candidate name (within one
bus the exact name is tested before the aliases, but across buses snapshot
order wins); in particular an earlier alias-only carrier beats a later
exact-name carrier. -/
theorem C3_amended_first_match :
    ∀ (pre : List ExternalBus) (bus : ExternalBus) (post : List ExternalBus)
      (name : String),
      (∀ b ∈ pre, busMatches b name = false) →
      busMatches bus name = true →
      findBus (pre ++ bus :: post) name = some bus := by
  intro pre bus post name hpre hbus
  induction pre with
  | nil =>
    simp only [List.nil_append, findBus]
    exact List.find?_cons_of_pos post hbus
  | cons b rest ih =>
    have hb : busMatches b name = false := hpre b (List.mem_cons_self b rest)
    have hrest : ∀ b2 ∈ rest, busMatches b2 name = false :=
      fun b2 hb2 => hpre b2 (List.mem_cons_of_mem b hb2)
    simp only [List.cons_append, findBus]
    rw [List.find?_cons_of_neg _ (by simp [hb])]
    exact ih hrest

/-- Witness for C3 amended: with no earlier match, the exact-name bus is
found. -/
theorem C3_amended_witness :
    findBus [c3BusExact, c3BusAlias] "Alpha" = some c3BusAlias :=
  C3_amended_first_match [c3BusExact] c3BusAlias [] "Alpha" (by decide) (by decide)

/-! ## C5 — source precedence in the normalizer -/

theorem insertSeen_mem (s : List String) (m n : String) :
    n ∈ insertSeen s m ↔ n ∈ s ∨ n = m := by
  unfold insertSeen
  by_cases h : m ∈ s
  · simp only [h, if_true]
    constructor
    · exact Or.inl
    · rintro (hn | rfl)
      · exact hn
      · exact h
  · simp [h]

/-- The structured phase keeps `seenBuses` equal (as a set) to the names of
the candidates pushed so far. -/
def namesInv (acc : NormAcc) : Prop :=
  ∀ n, n ∈ acc.2 ↔ n ∈ acc.1.map Candidate.name

theorem structuredTriple_namesInv (e : Entry) (ks : String × String × String)
    (acc : NormAcc) (h : namesInv acc) : namesInv (structuredTriple e acc ks) := by
  unfold structuredTriple
  cases hn : entryName e ks.1 with
  | none => exact h
  | some name =>
    intro n
    simp only [List.map_append, List.map_cons, List.map_nil, List.mem_append,
      List.mem_cons, List.not_mem_nil, or_false, insertSeen_mem]
    rw [h n]

theorem foldl_inv {α β : Type} (P : α → Prop) (f : α → β → α) (a : α) (l : List β)
    (hstep : ∀ acc b, P acc → P (f acc b)) (ha : P a) : P (l.foldl f a) := by
  induction l generalizing a with
  | nil => exact ha
  | cons x xs ih => exact ih (f a x) (hstep a x ha)

theorem structuredPhase_namesInv (entries : List Entry) :
    namesInv (structuredPhase entries) := by
  unfold structuredPhase
  refine foldl_inv namesInv structuredStep ([], []) entries ?_ ?_
  · intro acc e hacc
    unfold structuredStep
    exact foldl_inv namesInv (structuredTriple e) acc keyTriples
      (fun acc2 ks h2 => structuredTriple_namesInv e ks acc2 h2) hacc
  · intro n; simp

/-- The tabular phase only appends candidates whose names were not already
seen, and never removes seen names. -/
def NormExtends (acc acc2 : NormAcc) : Prop :=
  (∃ t, acc2.1 = acc.1 ++ t ∧ ∀ c ∈ t, c.name ∉ acc.2) ∧
    ∀ n ∈ acc.2, n ∈ acc2.2

theorem NormExtends.refl (acc : NormAcc) : NormExtends acc acc :=
  ⟨⟨[], by simp, by simp⟩, fun _ hn => hn⟩

theorem NormExtends.trans {a b c : NormAcc} (h1 : NormExtends a b)
    (h2 : NormExtends b c) : NormExtends a c := by
  obtain ⟨⟨t1, he1, hn1⟩, hs1⟩ := h1
  obtain ⟨⟨t2, he2, hn2⟩, hs2⟩ := h2
  refine ⟨⟨t1 ++ t2, by rw [he2, he1, List.append_assoc], ?_⟩,
    fun n hn => hs2 n (hs1 n hn)⟩
  intro cand hc
  rcases List.mem_append.mp hc with hc1 | hc2
  · exact hn1 cand hc1
  · exact fun hmem => hn2 cand hc2 (hs1 cand.name hmem)

theorem tabularIndex_extends (acc : NormAcc) (row : List String) (index : Nat)
    (acc2 : NormAcc) (h : tabularIndex acc row index = Except.ok acc2) :
    NormExtends acc acc2 := by
  unfold tabularIndex at h
  cases h0 : readCell row index with
  | error i => rw [h0] at h; exact absurd h (by simp)
  | ok nameCell =>
    rw [h0] at h
    simp only at h
    by_cases hlen : (jsTrim nameCell).length < 1
    · rw [if_pos hlen] at h
      cases h
      exact NormExtends.refl acc
    · rw [if_neg hlen] at h
      cases h1 : readCell row (index + 1) with
      | error i => rw [h1] at h; exact absurd h (by simp)
      | ok locCell =>
        rw [h1] at h
        simp only at h
        by_cases hseen : jsTrim nameCell ∈ acc.2
        · rw [if_pos hseen] at h
          cases h
          exact NormExtends.refl acc
        · rw [if_neg hseen] at h
          cases h2 : readCell row (index + 2) with
          | error i => rw [h2] at h; exact absurd h (by simp)
          | ok depCell =>
            rw [h2] at h
            cases h
            refine ⟨⟨_, rfl, ?_⟩, ?_⟩
            · intro cand hc
              rcases List.mem_singleton.mp hc with rfl
              exact hseen
            · intro n hn
              exact (insertSeen_mem acc.2 (jsTrim nameCell) n).mpr (Or.inl hn)

theorem tabularRow_extends (acc : NormAcc) (row : List String) (acc2 : NormAcc)
    (h : tabularRow acc row = Except.ok acc2) : NormExtends acc acc2 := by
  unfold tabularRow at h
  cases h0 : tabularIndex acc row 0 with
  | error i => rw [h0] at h; exact absurd h (by simp)
  | ok acc1 =>
    rw [h0] at h
    exact (tabularIndex_extends acc row 0 acc1 h0).trans
      (tabularIndex_extends acc1 row 3 acc2 h)

theorem tabularRows_extends (rows : List (List String)) :
    ∀ acc acc2, tabularRows acc rows = Except.ok acc2 → NormExtends acc acc2 := by
  induction rows with
  | nil =>
    intro acc acc2 h
    cases h
    exact NormExtends.refl acc
  | cons row rest ih =>
    intro acc acc2 h
    unfold tabularRows at h
    cases h0 : tabularRow acc row with
    | error i => rw [h0] at h; exact absurd h (by simp)
    | ok acc1 =>
      rw [h0] at h
      exact (tabularRow_extends acc row acc1 h0).trans (ih acc1 acc2 h)

/-- A structured entry with name `Bus1` and an empty location field. -/
def c5Entry : Entry := fun k =>
  if k = "gsx$towns" then some "Bus1"
  else if k = "gsx$loc" then some ""
  else none

/-- Three (unread) header rows, then a row carrying the same bus name with a
nonempty location. -/
def c5Rows : List (List String) := [[], [], [], ["Bus1", "YARD", "", ""]]

/-- C5: within one pass the structured-feed candidates come first, in
structured order, and a tabular row contributes a candidate only when its
name was not already produced by the structured feed; concretely, a
structured entry with an empty location for `Bus1` suppresses the tabular
row carrying `Bus1` with the nonempty location `YARD`. -/
theorem C5_structured_precedence :
    (∀ (entries : List Entry) (rows : List (List String)) (cs : List Candidate)
        (seen : List String),
        normalizeFeed entries rows = Except.ok (cs, seen) →
        ∃ tcs, cs = (structuredPhase entries).1 ++ tcs ∧
          ∀ c ∈ tcs, c.name ∉ (structuredPhase entries).1.map Candidate.name) ∧
      normalizeFeed [c5Entry] c5Rows = Except.ok ([⟨"Bus1", none, none⟩], ["Bus1"]) := by
  constructor
  · intro entries rows cs seen h
    unfold normalizeFeed tabularPhase at h
    obtain ⟨⟨t, he, hn⟩, _⟩ :=
      tabularRows_extends (rows.drop 3) (structuredPhase entries) (cs, seen) h
    refine ⟨t, he, fun c hc hmem => hn c hc ?_⟩
    exact (structuredPhase_namesInv entries c.name).mpr hmem
  · rfl

/-- Witness for C5: the general statement applied at the concrete feed pair. -/
theorem C5_witness :
    ∃ tcs, ([⟨"Bus1", none, none⟩] : List Candidate) =
        (structuredPhase [c5Entry]).1 ++ tcs ∧
      ∀ c ∈ tcs, c.name ∉ (structuredPhase [c5Entry]).1.map Candidate.name :=
  C5_structured_precedence.1 [c5Entry] c5Rows [⟨"Bus1", none, none⟩] ["Bus1"] rfl

/-! ## C6 — idempotence of the reconciler -/

/-- A candidate already reconciled against the cache: its name resolves to a
record that is available, whose departure agrees with the candidate (an
absent candidate departure agrees with anything) and whose location list
matches the candidate's location. -/
def candidateReconciled (buses : List (String × Bus)) (c : Candidate) : Bool :=
  match recGet buses c.name with
  | none => false
  | some bus =>
    bus.available &&
      (c.departure == none || bus.departure == c.departure) &&
      (if jsTruthy c.location then bus.locations.get? 0 == c.location
       else bus.locations == [])

theorem stepAvailability_noop (cfg : Config) (st : PassState) (name : String)
    (bus : Bus) (h : bus.available = true) :
    stepAvailability cfg st name bus = (st, bus) := by
  simp [stepAvailability, h]

theorem stepDeparture_noop (cfg : Config) (st : PassState) (name : String)
    (dep : Option Nat) (bus : Bus) (h : dep = none ∨ bus.departure = dep) :
    stepDeparture cfg st name dep bus = (st, bus) := by
  cases dep with
  | none => rfl
  | some d =>
    rcases h with h | h
    · exact absurd h (by simp)
    · simp [stepDeparture, h]

theorem stepLocation_noop (cfg : Config) (env : Env) (st : PassState)
    (name : String) (loc : Option String) (bus : Bus)
    (h1 : jsTruthy loc = true → bus.locations.get? 0 = loc)
    (h2 : jsTruthy loc = false → bus.locations = []) :
    stepLocation cfg env st name loc bus = st := by
  cases hj : jsTruthy loc with
  | true =>
    have hloc : bus.locations[0]? = some (loc.getD "") := by
      rw [← List.get?_eq_getElem?]
      exact (h1 hj).trans (jsTruthy_some_getD hj).symm
    simp [stepLocation, hj, hloc]
  | false =>
    simp [stepLocation, hj, h2 hj]

theorem applySteps_noop (cfg : Config) (env : Env) (st : PassState) (c : Candidate)
    (bus : Bus) (ha : bus.available = true)
    (hd : c.departure = none ∨ bus.departure = c.departure)
    (hl1 : jsTruthy c.location = true → bus.locations.get? 0 = c.location)
    (hl2 : jsTruthy c.location = false → bus.locations = []) :
    applySteps cfg env st c bus = st := by
  have e1 := stepAvailability_noop cfg st c.name bus ha
  have e2 := stepDeparture_noop cfg st c.name c.departure bus hd
  have e3 := stepLocation_noop cfg env st c.name c.location bus hl1 hl2
  simp only [applySteps, e1, e2, e3]

/-- A reconciled candidate is processed without any state change at all. -/
theorem processCandidate_reconciled (cfg : Config) (env : Env) (st : PassState)
    (c : Candidate) (h : candidateReconciled st.buses c = true) :
    processCandidate cfg env st c = st := by
  unfold candidateReconciled at h
  cases hrec : recGet st.buses c.name with
  | none => rw [hrec] at h; exact absurd h (by simp)
  | some bus =>
    rw [hrec] at h
    simp only [Bool.and_eq_true, Bool.or_eq_true, beq_iff_eq] at h
    obtain ⟨⟨ha, hd⟩, hl⟩ := h
    unfold processCandidate
    rw [hrec]
    refine applySteps_noop cfg env st c bus ha ?_ ?_ ?_
    · rcases hd with hd | hd
      · exact Or.inl hd
      · exact Or.inr hd
    · intro hj
      rw [if_pos hj] at hl
      simpa using hl
    · intro hj
      rw [if_neg (by simp [hj])] at hl
      simpa using hl

theorem sweepKey_noop (cfg : Config) (seen : List String) (st : PassState)
    (key : String)
    (h : key ∈ seen ∨ ∀ b, recGet st.buses key = some b → b.available = false) :
    sweepKey cfg seen st key = st := by
  unfold sweepKey
  by_cases hk : key ∈ seen
  · rw [if_pos hk]
  · rw [if_neg hk]
    rcases h with h | h
    · exact absurd h hk
    · cases hrec : recGet st.buses key with
      | none => rfl
      | some b =>
        have := h b hrec
        simp [this]

/-- C6: a candidate whose cached record is available with matching departure
and location triggers zero remote calls (the processing is a complete
no-op); consequently a pass over a feed whose every candidate is already
reconciled, against a cache whose unseen records are already unavailable,
issues no remote calls at all. -/
theorem C6_reconciled_no_mutations :
    (∀ (cfg : Config) (env : Env) (st : PassState) (c : Candidate),
        candidateReconciled st.buses c = true →
        processCandidate cfg env st c = st) ∧
      (∀ (cfg : Config) (env : Env) (buses0 : List (String × Bus))
          (cands : List Candidate) (seen : List String),
          (∀ c ∈ cands, candidateReconciled buses0 c = true) →
          (∀ p ∈ buses0, p.1 ∉ seen → p.2.available = false) →
          (runPass cfg env buses0 cands seen).calls = []) := by
  constructor
  · exact processCandidate_reconciled
  · intro cfg env buses0 cands seen hcands hsweep
    unfold runPass
    set st0 : PassState := ⟨buses0, false, none, []⟩ with hst0
    have hfold : cands.foldl (processCandidate cfg env) st0 = st0 :=
      foldl_id _ _ _ (fun c hc =>
        processCandidate_reconciled cfg env st0 c (hcands c hc))
    rw [hfold]
    unfold sweep
    have hkeys : (st0.buses.map Prod.fst).foldl (sweepKey cfg seen) st0 = st0 := by
      refine foldl_id _ _ _ (fun key _ => ?_)
      refine sweepKey_noop cfg seen st0 key ?_
      by_cases hk : key ∈ seen
      · exact Or.inl hk
      · refine Or.inr (fun b hb => ?_)
        have hmem : ∃ p ∈ st0.buses, p.1 = key ∧ p.2 = b := by
          unfold recGet at hb
          cases hf : st0.buses.find? (fun p => p.1 == key) with
          | none => rw [hf] at hb; exact absurd hb (by simp)
          | some p =>
            rw [hf] at hb
            have hp : p.1 = key := by simpa using List.find?_some hf
            exact ⟨p, List.mem_of_find?_eq_some hf, hp, by simpa using hb⟩
        obtain ⟨p, hpmem, hpk, hpb⟩ := hmem
        rw [← hpb]
        exact hsweep p hpmem (hpk ▸ hk)
    rw [hkeys]

def c6Bus : Bus :=
  { id := "a1", invalidateTime := none, departure := some 540,
    locations := ["X"], available := true }

def c6Env : Env := { remoteBuses := [], createId := fun _ => "unused", now := ⟨2026, 9, 11⟩ }

/-! ## C7 — creation of a new bus -/

theorem stepDeparture_set (cfg : Config) (st : PassState) (name : String)
    (bus : Bus) (d : Nat) (hne : ¬ bus.departure = some d) :
    stepDeparture cfg st name (some d) bus =
      ({ st with
          buses := recSet st.buses name { bus with departure := some d },
          calls := st.calls ++
            (if cfg.dryRun then [] else [RemoteCall.putDeparture bus.id d]) },
       { bus with departure := some d }) := by
  simp only [stepDeparture]
  rw [if_neg hne]

theorem stepLocation_set (cfg : Config) (env : Env) (st : PassState) (name : String)
    (loc : Option String) (bus : Bus) (s : String) (h : loc = some s) (hne : s ≠ "")
    (hmiss : ¬ bus.locations.get? 0 = some s) :
    stepLocation cfg env st name loc bus =
      { st with
          buses := recSet st.buses name
            { bus with locations := [s], invalidateTime := some (nextDayMidnight env.now) },
          calls := st.calls ++
            (if cfg.dryRun then [] else [RemoteCall.putLocation bus.id [s] true]),
          dataUpdated := true } := by
  subst h
  have hjt : jsTruthy (some s) = true := by simp [jsTruthy, hne]
  simp only [stepLocation, Option.getD_some]
  rw [if_pos hjt, if_neg hmiss]

/-- Steps 2–4 on a freshly created record (`available`, no departure, empty
locations): no create call is added, and the record ends available with the
singleton location and a next-day-midnight invalidate time. -/
theorem applySteps_fresh (cfg : Config) (env : Env) (st : PassState) (c : Candidate)
    (bus : Bus) (loc : String) (hav : bus.available = true)
    (hdep : bus.departure = none) (hlocs : bus.locations = [])
    (hcl : c.location = some loc) (hne : loc ≠ "") :
    countPosts (applySteps cfg env st c bus).calls = countPosts st.calls ∧
      ∃ bus2 : Bus, recGet (applySteps cfg env st c bus).buses c.name = some bus2 ∧
        bus2.available = true ∧ bus2.locations = [loc] ∧
        bus2.invalidateTime = some (nextDayMidnight env.now) := by
  have e1 := stepAvailability_noop cfg st c.name bus hav
  have hmiss : ¬ bus.locations.get? 0 = some loc := by rw [hlocs]; simp
  cases hcd : c.departure with
  | none =>
    have e2 := stepDeparture_noop cfg st c.name c.departure bus (Or.inl hcd)
    have efinal : applySteps cfg env st c bus =
        { st with
            buses := recSet st.buses c.name
              { bus with locations := [loc], invalidateTime := some (nextDayMidnight env.now) },
            calls := st.calls ++
              (if cfg.dryRun then [] else [RemoteCall.putLocation bus.id [loc] true]),
            dataUpdated := true } := by
      simp only [applySteps, e1, e2]
      exact stepLocation_set cfg env st c.name c.location bus loc hcl hne hmiss
    rw [efinal]
    refine ⟨?_, ⟨_, recGet_recSet_self _ _ _, hav, rfl, rfl⟩⟩
    rw [countPosts_append]
    cases hdr : cfg.dryRun <;> simp [hdr, countPosts, RemoteCall.isPost]
  | some d =>
    have e2 := stepDeparture_set cfg st c.name bus d (by rw [hdep]; simp)
    have hmiss2 : ¬ ({ bus with departure := some d } : Bus).locations.get? 0 = some loc := hmiss
    have efinal : applySteps cfg env st c bus =
        { st with
            buses := recSet (recSet st.buses c.name { bus with departure := some d }) c.name { id := bus.id, invalidateTime := some (nextDayMidnight env.now), departure := some d, locations := [loc], available := bus.available },
            calls := (st.calls ++ (if cfg.dryRun then [] else [RemoteCall.putDeparture bus.id d])) ++ (if cfg.dryRun then [] else [RemoteCall.putLocation bus.id [loc] true]),
            dataUpdated := true } := by
      simp only [applySteps, e1, hcd, e2]
      exact stepLocation_set cfg env _ c.name c.location _ loc hcl hne hmiss2
    rw [efinal]
    refine ⟨?_, ⟨_, recGet_recSet_self _ _ _, hav, rfl, rfl⟩⟩
    rw [countPosts_append, countPosts_append]
    cases hdr : cfg.dryRun <;> simp [hdr, countPosts, RemoteCall.isPost]

/-- C7: a candidate missing from both the cache and the remote directory, in
non-dry-run mode with a (truthy) location, results in exactly one create
call, and the candidate's processing ends with a cache entry that is
available, has the singleton location list, and carries a next-day-midnight
invalidate time. -/
theorem C7_new_bus_create :
    ∀ (cfg : Config) (env : Env) (st : PassState) (c : Candidate) (loc : String),
      cfg.dryRun = false →
      recGet st.buses c.name = none →
      st.busCache = none ∨ st.busCache = some env.remoteBuses →
      findBus env.remoteBuses c.name = none →
      c.location = some loc →
      loc ≠ "" →
      countPosts (processCandidate cfg env st c).calls = countPosts st.calls + 1 ∧
        ∃ bus2 : Bus, recGet (processCandidate cfg env st c).buses c.name = some bus2 ∧
          bus2.available = true ∧ bus2.locations = [loc] ∧
          bus2.invalidateTime = some (nextDayMidnight env.now) := by
  intro cfg env st c loc hdry hrec hcache hfind hcl hne
  have hjt : jsTruthy c.location = true := by rw [hcl]; simp [jsTruthy, hne]
  have hndry : ¬ cfg.dryRun = true := by rw [hdry]; simp
  rcases hcache with hcase | hcase <;>
    · simp only [processCandidate, resolveMiss, hrec, hcase, hfind]
      rw [if_neg hndry, if_pos hjt]
      constructor
      · rw [(applySteps_fresh cfg env _ c _ loc rfl rfl rfl hcl hne).1]
        simp [countPosts_append, countPosts, RemoteCall.isPost]
      · exact (applySteps_fresh cfg env _ c _ loc rfl rfl rfl hcl hne).2

def c7Env : Env :=
  { remoteBuses := [], createId := fun n => n ++ "-id", now := ⟨2026, 9, 11⟩ }

/-- Witness for C7: creating the bus `NewBus` at location `LOT` from an empty
cache and an empty remote directory. -/
theorem C7_witness :
    countPosts (processCandidate ⟨false⟩ c7Env ⟨[], false, none, []⟩
        ⟨"NewBus", some "LOT", none⟩).calls = countPosts [] + 1 ∧
      ∃ bus2 : Bus, recGet (processCandidate ⟨false⟩ c7Env ⟨[], false, none, []⟩
          ⟨"NewBus", some "LOT", none⟩).buses "NewBus" = some bus2 ∧
        bus2.available = true ∧ bus2.locations = ["LOT"] ∧
        bus2.invalidateTime = some (nextDayMidnight c7Env.now) :=
  C7_new_bus_create ⟨false⟩ c7Env ⟨[], false, none, []⟩ ⟨"NewBus", some "LOT", none⟩
    "LOT" rfl rfl (Or.inl rfl) rfl rfl (by decide)

/-- Witness for C6: a concrete already-reconciled single-bus pass issues no
remote calls. -/
theorem C6_witness :
    (runPass ⟨false⟩ c6Env [("A", c6Bus)] [⟨"A", some "X", some 540⟩] ["A"]).calls = [] :=
  C6_reconciled_no_mutations.2 ⟨false⟩ c6Env [("A", c6Bus)]
    [⟨"A", some "X", some 540⟩] ["A"] (by decide) (by decide)

/-! ## C8 — absence sweeper -/

/-- C8: for a cached key absent from the pass's candidate set, an available
record is marked unavailable with exactly one PATCH appended to the call log
(suppressed in dry-run), an already-unavailable record is left entirely
unchanged with no call, and sweeping the same absent key twice equals
sweeping it once. -/
theorem C8_absence_sweep :
    ∀ (cfg : Config) (seen : List String) (st : PassState) (key : String) (b : Bus),
      key ∉ seen →
      recGet st.buses key = some b →
      (b.available = true →
          sweepKey cfg seen st key =
            { st with
                buses := recSet st.buses key { b with available := false },
                calls := st.calls ++
                  (if cfg.dryRun then [] else [RemoteCall.patchAvailable b.id false]),
                dataUpdated := true }) ∧
        (b.available = false → sweepKey cfg seen st key = st) ∧
        sweepKey cfg seen (sweepKey cfg seen st key) key = sweepKey cfg seen st key := by
  intro cfg seen st key b hseen hrec
  have havail : ∀ h : b.available = true,
      sweepKey cfg seen st key =
        { st with
            buses := recSet st.buses key { b with available := false },
            calls := st.calls ++
              (if cfg.dryRun then [] else [RemoteCall.patchAvailable b.id false]),
            dataUpdated := true } := by
    intro h
    unfold sweepKey
    rw [if_neg hseen, hrec]
    simp [h]
  have hunavail : ∀ _h : b.available = false, sweepKey cfg seen st key = st := by
    intro h
    unfold sweepKey
    rw [if_neg hseen, hrec]
    simp [h]
  refine ⟨havail, hunavail, ?_⟩
  cases hav : b.available with
  | true =>
    rw [havail hav]
    have hrec2 : recGet (recSet st.buses key { b with available := false }) key =
        some { b with available := false } := recGet_recSet_self _ _ _
    unfold sweepKey
    rw [if_neg hseen]
    simp only [hrec2]
    simp
  | false =>
    rw [hunavail hav, hunavail hav]

def c8Bus : Bus :=
  { id := "b1", invalidateTime := none, departure := none, locations := [],
    available := true }

/-- Witness for C8: the sweeper on the absent available bus `Gone`. -/
theorem C8_witness :
    (c8Bus.available = true →
        sweepKey ⟨false⟩ [] ⟨[("Gone", c8Bus)], false, none, []⟩ "Gone" =
          { (⟨[("Gone", c8Bus)], false, none, []⟩ : PassState) with
              buses := recSet [("Gone", c8Bus)] "Gone" { c8Bus with available := false },
              calls := ([] : List RemoteCall) ++
                (if (false : Bool) then [] else [RemoteCall.patchAvailable c8Bus.id false]),
              dataUpdated := true }) ∧
      (c8Bus.available = false →
          sweepKey ⟨false⟩ [] ⟨[("Gone", c8Bus)], false, none, []⟩ "Gone" =
            ⟨[("Gone", c8Bus)], false, none, []⟩) ∧
      sweepKey ⟨false⟩ []
          (sweepKey ⟨false⟩ [] ⟨[("Gone", c8Bus)], false, none, []⟩ "Gone") "Gone" =
        sweepKey ⟨false⟩ [] ⟨[("Gone", c8Bus)], false, none, []⟩ "Gone" :=
  C8_absence_sweep ⟨false⟩ [] ⟨[("Gone", c8Bus)], false, none, []⟩ "Gone" c8Bus
    (by decide) (by decide)

/-! ## C9 — the remote directory is fetched at most once per pass -/

/-- `1` when the directory snapshot is memoized, `0` before the first fetch. -/
def cacheBit (st : PassState) : Nat :=
  match st.busCache with
  | some _ => 1
  | none => 0

/-- A state transition that fetches nothing: the snapshot and the fetch count
are unchanged and no cached name disappears. -/
def framePreserves (st st2 : PassState) : Prop :=
  st2.busCache = st.busCache ∧ countGets st2.calls = countGets st.calls ∧
    ∀ n, (recGet st.buses n).isSome = true → (recGet st2.buses n).isSome = true

theorem framePreserves_refl (st : PassState) : framePreserves st st :=
  ⟨rfl, rfl, fun _ h => h⟩

theorem framePreserves_trans {a b c : PassState} (h1 : framePreserves a b)
    (h2 : framePreserves b c) : framePreserves a c :=
  ⟨h2.1.trans h1.1, h2.2.1.trans h1.2.1, fun n hn => h2.2.2 n (h1.2.2 n hn)⟩

/-- A state transition that fetches at most the one lazy snapshot: the fetch
count grows exactly with the memoization bit, a memoized snapshot stays
memoized, and no cached name disappears. -/
def fetchFrame (st st2 : PassState) : Prop :=
  countGets st2.calls + cacheBit st = countGets st.calls + cacheBit st2 ∧
    (∀ l, st.busCache = some l → st2.busCache = some l) ∧
    ∀ n, (recGet st.buses n).isSome = true → (recGet st2.buses n).isSome = true

theorem fetchFrame_refl (st : PassState) : fetchFrame st st :=
  ⟨rfl, fun _ h => h, fun _ h => h⟩

theorem fetchFrame_trans {a b c : PassState} (h1 : fetchFrame a b)
    (h2 : fetchFrame b c) : fetchFrame a c := by
  refine ⟨?_, fun l hl => h2.2.1 l (h1.2.1 l hl), fun n hn => h2.2.2 n (h1.2.2 n hn)⟩
  have e1 := h1.1
  have e2 := h2.1
  omega

theorem fetchFrame_of_framePreserves {a b : PassState} (h : framePreserves a b) :
    fetchFrame a b := by
  refine ⟨?_, fun l hl => h.1.trans hl, h.2.2⟩
  rw [h.2.1]
  unfold cacheBit
  rw [h.1]

theorem stepAvailability_frame (cfg : Config) (st : PassState) (name : String)
    (bus : Bus) : framePreserves st (stepAvailability cfg st name bus).1 := by
  cases hav : bus.available with
  | true =>
    rw [stepAvailability_noop cfg st name bus hav]
    exact framePreserves_refl st
  | false =>
    have e : stepAvailability cfg st name bus =
        ({ st with
            buses := recSet st.buses name { bus with available := true },
            calls := st.calls ++
              (if cfg.dryRun then [] else [RemoteCall.patchAvailable bus.id true]),
            dataUpdated := true },
         { bus with available := true }) := by
      unfold stepAvailability
      rw [if_neg (by simp [hav])]
    rw [e]
    refine ⟨rfl, ?_, fun n h => recGet_recSet_isSome _ _ _ _ h⟩
    show countGets (st.calls ++
        (if cfg.dryRun then [] else [RemoteCall.patchAvailable bus.id true])) =
      countGets st.calls
    rw [countGets_append]
    cases hdr : cfg.dryRun <;> simp [countGets, RemoteCall.isGet]

theorem stepDeparture_frame (cfg : Config) (st : PassState) (name : String)
    (dep : Option Nat) (bus : Bus) :
    framePreserves st (stepDeparture cfg st name dep bus).1 := by
  cases dep with
  | none => exact framePreserves_refl st
  | some d =>
    by_cases hd : bus.departure = some d
    · rw [stepDeparture_noop cfg st name (some d) bus (Or.inr hd)]
      exact framePreserves_refl st
    · rw [stepDeparture_set cfg st name bus d hd]
      refine ⟨rfl, ?_, fun n h => recGet_recSet_isSome _ _ _ _ h⟩
      show countGets (st.calls ++
          (if cfg.dryRun then [] else [RemoteCall.putDeparture bus.id d])) =
        countGets st.calls
      rw [countGets_append]
      cases hdr : cfg.dryRun <;> simp [countGets, RemoteCall.isGet]

theorem stepLocation_frame (cfg : Config) (env : Env) (st : PassState) (name : String)
    (loc : Option String) (bus : Bus) :
    framePreserves st (stepLocation cfg env st name loc bus) := by
  simp only [stepLocation]
  split
  · split
    · exact framePreserves_refl st
    · refine ⟨rfl, ?_, fun n h => recGet_recSet_isSome _ _ _ _ h⟩
      cases hdr : cfg.dryRun <;> simp [countGets, RemoteCall.isGet]
  · split
    · exact framePreserves_refl st
    · refine ⟨rfl, ?_, fun n h => recGet_recSet_isSome _ _ _ _ h⟩
      cases hdr : cfg.dryRun <;> simp [countGets, RemoteCall.isGet]

theorem applySteps_frame (cfg : Config) (env : Env) (st : PassState) (c : Candidate)
    (bus : Bus) : framePreserves st (applySteps cfg env st c bus) := by
  have f1 := stepAvailability_frame cfg st c.name bus
  have f2 := stepDeparture_frame cfg (stepAvailability cfg st c.name bus).1 c.name
    c.departure (stepAvailability cfg st c.name bus).2
  have f3 := stepLocation_frame cfg env
    (stepDeparture cfg (stepAvailability cfg st c.name bus).1 c.name c.departure
      (stepAvailability cfg st c.name bus).2).1 c.name c.location
    (stepDeparture cfg (stepAvailability cfg st c.name bus).1 c.name c.departure
      (stepAvailability cfg st c.name bus).2).2
  exact framePreserves_trans (framePreserves_trans f1 f2) f3

theorem processCandidate_hit (cfg : Config) (env : Env) (st : PassState)
    (c : Candidate) (bus : Bus) (h : recGet st.buses c.name = some bus) :
    processCandidate cfg env st c = applySteps cfg env st c bus := by
  unfold processCandidate
  rw [h]

theorem processCandidate_hit_frame (cfg : Config) (env : Env) (st : PassState)
    (c : Candidate) (h : (recGet st.buses c.name).isSome = true) :
    framePreserves st (processCandidate cfg env st c) := by
  obtain ⟨bus, hb⟩ := Option.isSome_iff_exists.mp h
  rw [processCandidate_hit cfg env st c bus hb]
  exact applySteps_frame cfg env st c bus

theorem resolveMiss_frame (cfg : Config) (env : Env) (snap : List ExternalBus)
    (st2 : PassState) (c : Candidate) :
    framePreserves st2 (resolveMiss cfg env snap st2 c) := by
  unfold resolveMiss
  split
  · refine framePreserves_trans ?_ (applySteps_frame cfg env _ c _)
    exact ⟨rfl, rfl, fun n h => recGet_recSet_isSome _ _ _ _ h⟩
  · split
    · exact framePreserves_refl st2
    · split
      · refine framePreserves_trans ?_ (applySteps_frame cfg env _ c _)
        refine ⟨rfl, ?_, fun n h => recGet_recSet_isSome _ _ _ _ h⟩
        simp [countGets, RemoteCall.isGet]
      · exact framePreserves_refl st2

theorem processCandidate_fetchFrame (cfg : Config) (env : Env) (st : PassState)
    (c : Candidate) : fetchFrame st (processCandidate cfg env st c) := by
  cases hrec : recGet st.buses c.name with
  | some bus =>
    rw [processCandidate_hit cfg env st c bus hrec]
    exact fetchFrame_of_framePreserves (applySteps_frame cfg env st c bus)
  | none =>
    cases hbc : st.busCache with
    | some l =>
      have hred : processCandidate cfg env st c = resolveMiss cfg env l st c := by
        unfold processCandidate
        rw [hrec, hbc]
      rw [hred]
      exact fetchFrame_of_framePreserves (resolveMiss_frame cfg env l st c)
    | none =>
      have hred : processCandidate cfg env st c =
          resolveMiss cfg env env.remoteBuses
            { st with
                busCache := some env.remoteBuses,
                calls := st.calls ++ [RemoteCall.getBuses] } c := by
        unfold processCandidate
        rw [hrec, hbc]
      rw [hred]
      refine fetchFrame_trans ?_
        (fetchFrame_of_framePreserves (resolveMiss_frame cfg env _ _ c))
      refine ⟨?_, ?_, fun n h => h⟩
      · have h0 : cacheBit st = 0 := by unfold cacheBit; rw [hbc]
        have h1 : cacheBit
            { st with
                busCache := some env.remoteBuses,
                calls := st.calls ++ [RemoteCall.getBuses] } = 1 := rfl
        rw [h0, h1]
        show countGets (st.calls ++ [RemoteCall.getBuses]) + 0 = countGets st.calls + 1
        rw [countGets_append]
        simp [countGets, RemoteCall.isGet]
      · intro l hl
        rw [hbc] at hl
        cases hl

theorem runCands_fetchFrame (cfg : Config) (env : Env) (cands : List Candidate) :
    ∀ st, fetchFrame st (cands.foldl (processCandidate cfg env) st) := by
  induction cands with
  | nil => intro st; exact fetchFrame_refl st
  | cons c cs ih =>
    intro st
    exact fetchFrame_trans (processCandidate_fetchFrame cfg env st c) (ih _)

theorem runCands_allHit_frame (cfg : Config) (env : Env) (cands : List Candidate) :
    ∀ st, (∀ c ∈ cands, (recGet st.buses c.name).isSome = true) →
      framePreserves st (cands.foldl (processCandidate cfg env) st) := by
  induction cands with
  | nil => intro st _; exact framePreserves_refl st
  | cons c cs ih =>
    intro st h
    have f1 := processCandidate_hit_frame cfg env st c (h c (List.mem_cons_self c cs))
    have hrest : ∀ c2 ∈ cs,
        (recGet (processCandidate cfg env st c).buses c2.name).isSome = true :=
      fun c2 hc2 => f1.2.2 c2.name (h c2 (List.mem_cons_of_mem c hc2))
    exact framePreserves_trans f1 (ih _ hrest)

theorem sweepKey_frame (cfg : Config) (seen : List String) (st : PassState)
    (key : String) : framePreserves st (sweepKey cfg seen st key) := by
  unfold sweepKey
  split
  · exact framePreserves_refl st
  · split
    · exact framePreserves_refl st
    · split
      · refine ⟨rfl, ?_, fun n h => recGet_recSet_isSome _ _ _ _ h⟩
        cases hdr : cfg.dryRun <;> simp [countGets, RemoteCall.isGet]
      · exact framePreserves_refl st

theorem sweep_frame (cfg : Config) (seen : List String) (st : PassState) :
    framePreserves st (sweep cfg seen st) := by
  unfold sweep
  have hgen : ∀ (l : List String) (st2 : PassState),
      framePreserves st2 (l.foldl (sweepKey cfg seen) st2) := by
    intro l
    induction l with
    | nil => intro st2; exact framePreserves_refl st2
    | cons k ks ih =>
      intro st2
      exact framePreserves_trans (sweepKey_frame cfg seen st2 k) (ih _)
  exact hgen _ st

/-- C9: within a single pass the remote directory is fetched at most once;
a pass in which every candidate name hits the cache fetches it zero times;
and once the snapshot is memoized, processing any further candidate issues
no additional fetch (the snapshot is reused). -/
theorem C9_directory_single_fetch :
    (∀ (cfg : Config) (env : Env) (buses0 : List (String × Bus))
        (cands : List Candidate) (seen : List String),
        countGets (runPass cfg env buses0 cands seen).calls ≤ 1) ∧
      (∀ (cfg : Config) (env : Env) (buses0 : List (String × Bus))
          (cands : List Candidate) (seen : List String),
          (∀ c ∈ cands, (recGet buses0 c.name).isSome = true) →
          countGets (runPass cfg env buses0 cands seen).calls = 0) ∧
      (∀ (cfg : Config) (env : Env) (st : PassState) (c : Candidate)
          (l : List ExternalBus), st.busCache = some l →
          countGets (processCandidate cfg env st c).calls = countGets st.calls) := by
  refine ⟨?_, ?_, ?_⟩
  · intro cfg env buses0 cands seen
    unfold runPass
    set st0 : PassState := ⟨buses0, false, none, []⟩ with hst0
    set mid := cands.foldl (processCandidate cfg env) st0 with hmid
    have hf := runCands_fetchFrame cfg env cands st0
    rw [← hmid] at hf
    have hmid0 : countGets mid.calls = cacheBit mid := by
      have e := hf.1
      have h1 : countGets st0.calls = 0 := rfl
      have h2 : cacheBit st0 = 0 := rfl
      omega
    have hbit : cacheBit mid ≤ 1 := by
      unfold cacheBit
      cases mid.busCache <;> simp
    have hsw := (sweep_frame cfg seen mid).2.1
    rw [hsw, hmid0]
    exact hbit
  · intro cfg env buses0 cands seen hall
    unfold runPass
    set st0 : PassState := ⟨buses0, false, none, []⟩ with hst0
    set mid := cands.foldl (processCandidate cfg env) st0 with hmid
    have hf := runCands_allHit_frame cfg env cands st0 hall
    rw [← hmid] at hf
    have hsw := (sweep_frame cfg seen mid).2.1
    rw [hsw, hf.2.1]
    rfl
  · intro cfg env st c l hl
    have hf := processCandidate_fetchFrame cfg env st c
    have hsome := hf.2.1 l hl
    have e := hf.1
    have b1 : cacheBit st = 1 := by unfold cacheBit; rw [hl]
    have b2 : cacheBit (processCandidate cfg env st c) = 1 := by
      unfold cacheBit; rw [hsome]
    omega

def c9Bus : Bus :=
  { id := "c1", invalidateTime := none, departure := none, locations := ["Y"],
    available := true }

/-- Witness for C9: a pass whose only candidate hits the cache performs zero
directory fetches. -/
theorem C9_witness :
    countGets (runPass ⟨false⟩ c6Env [("A", c9Bus)] [⟨"A", some "Y", none⟩] ["A"]).calls = 0 :=
  C9_directory_single_fetch.2.1 ⟨false⟩ c6Env [("A", c9Bus)] [⟨"A", some "Y", none⟩]
    ["A"] (by decide)

/-! ## C10 — short tabular rows make the parse throw -/

/-- C10 counterexample: the claim says a data row with fewer than four cells
throws while reading the cell at index 3.  The one-cell row `["Bus9"]` (with
a nonempty name) throws earlier, while reading the location cell at index 1,
so the cell named by the claim is wrong for this shape (the throw itself
does happen). -/
theorem C10_counterexample :
    normalizeFeed [] [[], [], [], ["Bus9"]] = Except.error 1 ∧ (1 : Nat) ≠ 3 :=
  ⟨rfl, by decide⟩

theorem get?_lt (l : List String) : ∀ i, i < l.length → ∃ x, l.get? i = some x := by
  induction l with
  | nil => intro i h; simp at h
  | cons a t ih =>
    intro i h
    cases i with
    | zero => exact ⟨a, rfl⟩
    | succ j => exact ih j (by simpa using h)

theorem tabularIndex_ok (acc : NormAcc) (row : List String) (index : Nat)
    (h0 : index < row.length) (h1 : index + 1 < row.length)
    (h2 : index + 2 < row.length) :
    ∃ acc2, tabularIndex acc row index = Except.ok acc2 := by
  obtain ⟨s0, hs0⟩ := get?_lt row index h0
  obtain ⟨s1, hs1⟩ := get?_lt row (index + 1) h1
  obtain ⟨s2, hs2⟩ := get?_lt row (index + 2) h2
  unfold tabularIndex readCell
  simp only [hs0, hs1, hs2]
  split
  · exact ⟨acc, rfl⟩
  · split
    · exact ⟨acc, rfl⟩
    · exact ⟨_, rfl⟩

theorem tabularRow_ok (acc : NormAcc) (row : List String) (h : 6 ≤ row.length) :
    ∃ acc2, tabularRow acc row = Except.ok acc2 := by
  obtain ⟨a1, e1⟩ := tabularIndex_ok acc row 0 (by omega) (by omega) (by omega)
  obtain ⟨a2, e2⟩ := tabularIndex_ok a1 row 3 (by omega) (by omega) (by omega)
  refine ⟨a2, ?_⟩
  unfold tabularRow
  rw [e1]
  exact e2

/-- C10 amended: every data row with fewer than four cells makes the tabular
parse throw — failing the whole pass rather than silently dropping the row —
but the throw happens at the first missing accessed offset (0, 1, 2 or 3),
at index 3 in particular only when the accesses of the first column group
all stay in bounds; a cell at every accessed offset (0–2 and 3–5, so six
cells) guarantees the row parses without an exception. -/
theorem C10_amended_short_row_throws :
    (∀ (acc : NormAcc) (row : List String), row.length < 4 →
        ∃ i, i ≤ 3 ∧ tabularRow acc row = Except.error i) ∧
      ∀ (acc : NormAcc) (row : List String), 6 ≤ row.length →
        ∃ acc2, tabularRow acc row = Except.ok acc2 := by
  constructor
  · intro acc row h
    rcases row with _ | ⟨a, _ | ⟨b, _ | ⟨c, _ | ⟨d, rest⟩⟩⟩⟩
    · exact ⟨0, by omega, rfl⟩
    · by_cases h1 : (jsTrim a).length < 1
      · exact ⟨3, by omega, by simp [tabularRow, tabularIndex, readCell, List.get?, h1]⟩
      · exact ⟨1, by omega, by simp [tabularRow, tabularIndex, readCell, List.get?, h1]⟩
    · by_cases h1 : (jsTrim a).length < 1
      · exact ⟨3, by omega, by simp [tabularRow, tabularIndex, readCell, List.get?, h1]⟩
      · by_cases h2 : jsTrim a ∈ acc.2
        · exact ⟨3, by omega,
            by simp [tabularRow, tabularIndex, readCell, List.get?, h1, h2]⟩
        · exact ⟨2, by omega,
            by simp [tabularRow, tabularIndex, readCell, List.get?, h1, h2]⟩
    · refine ⟨3, by omega, ?_⟩
      by_cases h1 : (jsTrim a).length < 1
      · simp [tabularRow, tabularIndex, readCell, List.get?, h1]
      · by_cases h2 : jsTrim a ∈ acc.2
        · simp [tabularRow, tabularIndex, readCell, List.get?, h1, h2]
        · simp [tabularRow, tabularIndex, readCell, List.get?, h1, h2]
    · simp only [List.length_cons] at h
      omega
  · exact fun acc row h => tabularRow_ok acc row h

/-- Witness for C10: the amended statement applied to the one-cell row. -/
theorem C10_witness :
    ∃ i, i ≤ 3 ∧ tabularRow ([], []) ["Bus9"] = Except.error i :=
  C10_amended_short_row_throws.1 ([], []) ["Bus9"] (by decide)

end FurryGuacamole
